import Mathlib

/-!
Verification of the context-assembly, stream-relay and history-rewind logic
of a chat-relay backend (`main.py` of Local-LLM-Chat).

The embedding is shallow and executable.  Timestamps are modelled as natural
numbers produced by a discrete, strictly increasing clock carried by the
store (the code takes `datetime.utcnow()` at each insert and the data-model
invariant demands strictly increasing timestamps per conversation).  Upstream
body lines are modelled after `json.loads`: a line is either unparsable (or
empty, which the code skips the same way) or a parsed chunk carrying the
optional `message.content` string and the `done` flag.  JSON text syntax
itself is external to every claim and is not modelled.
-/

/-- A stored chat message (the `ChatMessage` table of `main.py`): primary
key, role, textual content, creation timestamp, owning conversation id. -/
structure ChatMessage where
  id : Nat
  role : String
  content : String
  created_at : Nat
  conversation_id : Nat
  deriving DecidableEq, Repr

/-- The Store: persisted message rows in insertion order, the autoincrement
primary-key counter, and the clock supplying `datetime.utcnow()` values. -/
structure Store where
  messages : List ChatMessage
  nextId : Nat
  clock : Nat
  deriving DecidableEq, Repr

/-- `session.add(msg); session.commit(); session.refresh(msg)` for a fresh
`ChatMessage`: the row is appended with a fresh primary key and the current
clock as `created_at`; returns the updated store and the persisted row. -/
def Store.insertMessage (st : Store) (role content : String) (convId : Nat) :
    Store × ChatMessage :=
  let m : ChatMessage := ⟨st.nextId, role, content, st.clock, convId⟩
  (⟨st.messages ++ [m], st.nextId + 1, st.clock + 1⟩, m)

/-- The rows of one conversation, in stored (chronological) order:
`select(ChatMessage).where(ChatMessage.conversation_id == conversation_id)`. -/
def Store.messagesOf (st : Store) (convId : Nat) : List ChatMessage :=
  st.messages.filter (fun m => m.conversation_id == convId)

/-- Store well-formedness: every stored timestamp lies strictly before the
clock (timestamps are in the past), and primary keys are unique. -/
def Store.WF (st : Store) : Prop :=
  (∀ m ∈ st.messages, m.created_at < st.clock) ∧
    st.messages.Pairwise (fun a b => a.id ≠ b.id)

/-- `CONTEXT_CHAR_LIMIT = 4096 * 2` (main.py line 103). -/
def CONTEXT_CHAR_LIMIT : Nat := 4096 * 2

/-- One `{"role": ..., "content": ...}` entry of `messages_for_ollama`. -/
structure RoleContent where
  role : String
  content : String
  deriving DecidableEq, Repr

/-- Projection of a stored message to the dictionary sent upstream
(main.py line 120). -/
def ChatMessage.toRoleContent (m : ChatMessage) : RoleContent :=
  ⟨m.role, m.content⟩

/-- The `for msg in history` walk of main.py lines 115 to 121: traverse the
newest-first history; at the first message whose character length would push
`current_chars` past `CONTEXT_CHAR_LIMIT`, break; otherwise append the
message and add its length to the running total. -/
def contextLoop : List ChatMessage → Nat → List RoleContent
  | [], _ => []
  | msg :: rest, current_chars =>
    let msg_chars := msg.content.length
    if current_chars + msg_chars > CONTEXT_CHAR_LIMIT then []
    else msg.toRoleContent :: contextLoop rest (current_chars + msg_chars)

/-- Context building (main.py lines 99 to 124) for a conversation whose
stored chronological message sequence is `ms`: the history is fetched
ordered by `created_at` descending (the reverse of `ms`, under the
strictly-increasing-timestamp invariant), walked by `contextLoop` from a
zero character count, and the collected list reversed back to chronological
order. -/
def messages_for_ollama (ms : List ChatMessage) : List RoleContent :=
  (contextLoop ms.reverse 0).reverse

/-- One line of the upstream body as seen after `json.loads`: either an
empty or unparsable line (silently skipped), or a parsed object with the
optional `message.content` field and the `done` flag. -/
inductive UpstreamLine where
  | malformed : UpstreamLine
  | chunk (content : Option String) (done : Bool) : UpstreamLine
  deriving DecidableEq, Repr

/-- Whether a body line carries a truthy completion flag. -/
def UpstreamLine.isDone : UpstreamLine → Bool
  | .chunk _ d => d
  | .malformed => false

/-- An upstream HTTP response: status code, error body (read only on the
non-200 path) and the parsed body lines. -/
structure UpstreamResponse where
  status : Nat
  errorBody : String
  lines : List UpstreamLine
  deriving DecidableEq, Repr

/-- An outward server-sent event, as encoded by the `yield` statements. -/
inductive Event where
  | initial (user_message : ChatMessage) (conversation_id : Nat)
  | error (text : String)
  | delta (fragment : String)
  | done (message : ChatMessage)
  deriving DecidableEq, Repr

/-- Whether an event is a content-delta event. -/
def Event.isDelta : Event → Bool
  | .delta _ => true
  | _ => false

/-- Whether an event is a terminal done event. -/
def Event.isDone : Event → Bool
  | .done _ => true
  | _ => false

/-- The `async for line in response.aiter_lines()` loop (main.py lines 139
to 150), threading the `full_response_content` accumulator and the store.
A truthy content piece is appended to the accumulator and emitted as a delta
event (an absent or empty piece does neither); a truthy `done` flag persists
the accumulator as a new assistant message of the conversation and emits the
terminal event carrying the persisted row; the loop then continues with the
remaining lines. -/
def relayLoop (convId : Nat) : List UpstreamLine → String → Store → List Event × Store
  | [], _, st => ([], st)
  | UpstreamLine.malformed :: rest, acc, st => relayLoop convId rest acc st
  | UpstreamLine.chunk content d :: rest, acc, st =>
    let step :=
      match content with
      | some piece =>
        if piece.isEmpty then (([] : List Event), acc)
        else ([Event.delta piece], acc ++ piece)
      | none => (([] : List Event), acc)
    let persist :=
      if d then
        let ins := Store.insertMessage st "assistant" step.2 convId
        ([Event.done ins.2], ins.1)
      else (([] : List Event), st)
    let rec1 := relayLoop convId rest step.2 persist.2
    (step.1 ++ (persist.1 ++ rec1.1), rec1.2)

/-- `stream_ollama_response` (main.py lines 128 to 150) as a function of the
upstream response: on a non-200 status, yield the single error event
carrying the upstream body and return; otherwise run the line loop with an
empty accumulator. -/
def stream_ollama_response (convId : Nat) (resp : UpstreamResponse) (st : Store) :
    List Event × Store :=
  if resp.status ≠ 200 then
    ([Event.error ("Ollama API Error: " ++ resp.errorBody)], st)
  else
    relayLoop convId resp.lines "" st

/-- `regenerate_from_prompt` (main.py lines 172 to 188) up to the point
where the stream is started: resolve the target message by primary key; fail
not-found (before any mutation) unless it exists with role `user`; delete
every message of its conversation with `created_at >= t0`; insert the
replacement user message.  Returns the mutated store, the new user message
and the conversation id, or `Except.error ()` for the 404 path. -/
def regenerate_from_prompt (st : Store) (message_id : Nat) (new_prompt : String) :
    Except Unit (Store × ChatMessage × Nat) :=
  match st.messages.find? (fun m => m.id == message_id) with
  | none => Except.error ()
  | some original =>
    if original.role ≠ "user" then Except.error ()
    else
      let convId := original.conversation_id
      let t0 := original.created_at
      let remaining := st.messages.filter
        (fun m => !(m.conversation_id == convId && decide (t0 ≤ m.created_at)))
      let ins := Store.insertMessage ⟨remaining, st.nextId, st.clock⟩ "user" new_prompt convId
      Except.ok (ins.1, ins.2, convId)

/-- The `/api/regenerate` endpoint composed with the relay (main.py lines
171 to 193): the rewind and the insert are committed first; only then is the
initial event emitted and `stream_ollama_response` driven on the already
mutated store. -/
def regenerate_endpoint (st : Store) (message_id : Nat) (new_prompt : String)
    (resp : UpstreamResponse) : Except Unit (List Event × Store) :=
  match regenerate_from_prompt st message_id new_prompt with
  | Except.error e => Except.error e
  | Except.ok (st2, newMsg, convId) =>
    let out := stream_ollama_response convId resp st2
    Except.ok (Event.initial newMsg convId :: out.1, out.2)

/-- Concatenation, in emission order, of the fragments of all delta
events. -/
def deltaConcat : List Event → String
  | [] => ""
  | Event.delta s :: rest => s ++ deltaConcat rest
  | _ :: rest => deltaConcat rest

/-- Total character length of a list of context entries. -/
def rcSum : List RoleContent → Nat
  | [] => 0
  | rc :: rest => rc.content.length + rcSum rest

/-- Total character length of a list of stored messages. -/
def msgSum : List ChatMessage → Nat
  | [] => 0
  | m :: rest => m.content.length + msgSum rest

/-- Number of body lines carrying a truthy completion flag. -/
def countDoneLines (lines : List UpstreamLine) : Nat :=
  lines.countP UpstreamLine.isDone

/-- A string of `CONTEXT_CHAR_LIMIT` characters, used as oversized
content. -/
def bigA : String := String.mk (List.replicate CONTEXT_CHAR_LIMIT 'a')

/-- A string one character longer than `CONTEXT_CHAR_LIMIT`. -/
def bigB : String := String.mk (List.replicate (CONTEXT_CHAR_LIMIT + 1) 'a')

/-- Each done event's accumulator bookkeeping: walking the event list while
concatenating delta fragments onto `acc`, every done event carries a message
whose content is exactly the current accumulator. -/
def DoneMatchesDeltas : String → List Event → Prop
  | _, [] => True
  | acc, Event.delta s :: rest => DoneMatchesDeltas (acc ++ s) rest
  | acc, Event.done m :: rest => m.content = acc ∧ DoneMatchesDeltas acc rest
  | acc, Event.initial _ _ :: rest => DoneMatchesDeltas acc rest
  | acc, Event.error _ :: rest => DoneMatchesDeltas acc rest

lemma contextLoop_stop (m : ChatMessage) (rest : List ChatMessage) (cc : Nat)
    (h : cc + m.content.length > CONTEXT_CHAR_LIMIT) :
    contextLoop (m :: rest) cc = [] := by
  simp [contextLoop, h]

lemma contextLoop_keep (m : ChatMessage) (rest : List ChatMessage) (cc : Nat)
    (h : ¬ (cc + m.content.length > CONTEXT_CHAR_LIMIT)) :
    contextLoop (m :: rest) cc =
      m.toRoleContent :: contextLoop rest (cc + m.content.length) := by
  simp [contextLoop, h]

lemma rcSum_append (l₁ l₂ : List RoleContent) :
    rcSum (l₁ ++ l₂) = rcSum l₁ + rcSum l₂ := by
  induction l₁ with
  | nil => simp [rcSum]
  | cons rc rest ih => simp [rcSum, ih]; omega

lemma rcSum_reverse (l : List RoleContent) : rcSum l.reverse = rcSum l := by
  induction l with
  | nil => rfl
  | cons rc rest ih => simp [rcSum, List.reverse_cons, rcSum_append, ih]; omega

lemma contextLoop_sum (hist : List ChatMessage) :
    ∀ acc : Nat, acc ≤ CONTEXT_CHAR_LIMIT →
      acc + rcSum (contextLoop hist acc) ≤ CONTEXT_CHAR_LIMIT := by
  induction hist with
  | nil => intro acc h; simpa [contextLoop, rcSum] using h
  | cons m rest ih =>
    intro acc h
    by_cases hc : acc + m.content.length > CONTEXT_CHAR_LIMIT
    · simpa [contextLoop, hc, rcSum] using h
    · have h' : acc + m.content.length ≤ CONTEXT_CHAR_LIMIT := Nat.le_of_not_lt hc
      have hrec := ih (acc + m.content.length) h'
      simp only [contextLoop, if_neg hc, rcSum, ChatMessage.toRoleContent]
      omega

lemma contextLoop_take (hist : List ChatMessage) :
    ∀ acc : Nat,
      ∃ k, k ≤ hist.length ∧
        contextLoop hist acc = List.map ChatMessage.toRoleContent (hist.take k) ∧
        ∀ hk : k < hist.length,
          CONTEXT_CHAR_LIMIT <
            acc + msgSum (hist.take k) + (hist.get ⟨k, hk⟩).content.length := by
  induction hist with
  | nil =>
    intro acc
    exact ⟨0, Nat.le_refl 0, by simp [contextLoop], fun hk => absurd hk (by simp)⟩
  | cons m rest ih =>
    intro acc
    by_cases hc : acc + m.content.length > CONTEXT_CHAR_LIMIT
    · refine ⟨0, Nat.zero_le _, by simp [contextLoop, hc], ?_⟩
      intro hk
      simpa [msgSum] using hc
    · obtain ⟨k, hk1, hk2, hk3⟩ := ih (acc + m.content.length)
      refine ⟨k + 1, Nat.succ_le_succ hk1, ?_, ?_⟩
      · simp [contextLoop, hc, hk2]
      · intro hklt
        have hrec := hk3 (Nat.lt_of_succ_lt_succ hklt)
        simp only [List.take_succ_cons, msgSum, List.get_cons_succ]
        omega

/-- C7: for every stored history, the total character length of the
assembled context never exceeds `CONTEXT_CHAR_LIMIT` (8192); moreover the
walk keeps exactly the `k` most recent messages for some `k` (collected from
the newest-first history and re-reversed), and if any message was left out,
then including the next (older) one would have pushed the running total past
the budget — it and everything older is excluded. -/
theorem claim7_budget (ms : List ChatMessage) :
    rcSum (messages_for_ollama ms) ≤ CONTEXT_CHAR_LIMIT ∧
    ∃ k, k ≤ ms.reverse.length ∧
      messages_for_ollama ms =
        (List.map ChatMessage.toRoleContent (ms.reverse.take k)).reverse ∧
      ∀ hk : k < ms.reverse.length,
        CONTEXT_CHAR_LIMIT <
          msgSum (ms.reverse.take k) + (ms.reverse.get ⟨k, hk⟩).content.length := by
  constructor
  · have h := contextLoop_sum ms.reverse 0 (Nat.zero_le _)
    have hr : rcSum (messages_for_ollama ms) = rcSum (contextLoop ms.reverse 0) := by
      rw [messages_for_ollama, rcSum_reverse]
    omega
  · obtain ⟨k, h1, h2, h3⟩ := contextLoop_take ms.reverse 0
    refine ⟨k, h1, by rw [messages_for_ollama, h2], ?_⟩
    intro hk
    have := h3 hk
    omega

/-- C2 counterexample: with a most-recent short message and an older message
of exactly `CONTEXT_CHAR_LIMIT` characters, the assembler keeps only the
recent message, so its output is not a prefix of the conversation's
chronological message sequence (it is a suffix of it). -/
theorem claim2_counterexample :
    ¬ (messages_for_ollama
          [⟨1, "user", bigA, 1, 1⟩, ⟨2, "assistant", "ok", 2, 1⟩] <+:
        List.map ChatMessage.toRoleContent
          [⟨1, "user", bigA, 1, 1⟩, ⟨2, "assistant", "ok", 2, 1⟩]) := by
  have hA : bigA.length = CONTEXT_CHAR_LIMIT := by simp [bigA, String.length]
  have hcomp : messages_for_ollama
      [⟨1, "user", bigA, 1, 1⟩, ⟨2, "assistant", "ok", 2, 1⟩] =
      [⟨"assistant", "ok"⟩] := by
    have hc1 : ¬ ((0 : Nat) +
        (⟨2, "assistant", "ok", 2, 1⟩ : ChatMessage).content.length >
          CONTEXT_CHAR_LIMIT) := by decide
    have hc2 : (0 : Nat) +
        (⟨2, "assistant", "ok", 2, 1⟩ : ChatMessage).content.length +
        (⟨1, "user", bigA, 1, 1⟩ : ChatMessage).content.length >
          CONTEXT_CHAR_LIMIT := by
      have h2 : (⟨2, "assistant", "ok", 2, 1⟩ : ChatMessage).content.length = 2 := by
        decide
      have hb : (⟨1, "user", bigA, 1, 1⟩ : ChatMessage).content.length =
          CONTEXT_CHAR_LIMIT := hA
      rw [h2, hb]
      omega
    rw [messages_for_ollama,
      show ([⟨1, "user", bigA, 1, 1⟩, ⟨2, "assistant", "ok", 2, 1⟩] :
          List ChatMessage).reverse =
        [⟨2, "assistant", "ok", 2, 1⟩, ⟨1, "user", bigA, 1, 1⟩] by simp,
      contextLoop_keep _ _ _ hc1, contextLoop_stop _ _ _ hc2]
    rfl
  intro h
  rw [hcomp] at h
  obtain ⟨t, ht⟩ := h
  have hhead : (⟨"assistant", "ok"⟩ : RoleContent) =
      (⟨"user", bigA⟩ : RoleContent) := by
    have hh := congrArg (fun l => l.head?) ht
    simp [ChatMessage.toRoleContent] at hh
  have : ("assistant" : String) = "user" := congrArg RoleContent.role hhead
  exact absurd this (by decide)

/-- C2 amended: the Context Assembler's output is a contiguous suffix, in
chronological (oldest-to-newest) order, of the conversation's stored message
sequence — the most recent messages; equivalently, the reverse of the output
is a prefix of the newest-first fetched history. -/
theorem claim2_amended (ms : List ChatMessage) :
    messages_for_ollama ms <:+ List.map ChatMessage.toRoleContent ms := by
  obtain ⟨k, _, h2, _⟩ := contextLoop_take ms.reverse 0
  have hx : List.map ChatMessage.toRoleContent (ms.reverse.take k) <+:
      List.map ChatMessage.toRoleContent ms.reverse := by
    rw [List.map_take]
    exact List.take_prefix k _
  have hs := List.reverse_suffix.mpr hx
  rw [List.map_reverse, List.reverse_reverse] at hs
  rw [messages_for_ollama, h2]
  exact hs

/-- C6: if the single most recent stored message alone is longer than the
budget, the assembled context is empty — the assembler only includes or
excludes whole messages and never truncates one. -/
theorem claim6_oversized (ms : List ChatMessage) (mlast : ChatMessage)
    (hlast : ms.getLast? = some mlast)
    (hlen : CONTEXT_CHAR_LIMIT < mlast.content.length) :
    messages_for_ollama ms = [] := by
  cases hrev : ms.reverse with
  | nil =>
    rw [List.reverse_eq_nil_iff] at hrev
    subst hrev
    simp at hlast
  | cons a t =>
    have h1 : ms.getLast? = some a := by
      rw [← List.head?_reverse, hrev]
      rfl
    rw [hlast] at h1
    have ha : a = mlast := (Option.some.inj h1).symm
    subst ha
    have hc : (0 : Nat) + a.content.length > CONTEXT_CHAR_LIMIT := by omega
    rw [messages_for_ollama, hrev, contextLoop_stop _ _ _ hc]
    rfl

/-- C6 witness: a single stored message of 8193 characters produces the
empty context. -/
theorem claim6_witness :
    ([(⟨1, "user", bigB, 1, 1⟩ : ChatMessage)].getLast? =
        some (⟨1, "user", bigB, 1, 1⟩ : ChatMessage)) ∧
    CONTEXT_CHAR_LIMIT < bigB.length ∧
    messages_for_ollama [⟨1, "user", bigB, 1, 1⟩] = [] := by
  have hB : bigB.length = CONTEXT_CHAR_LIMIT + 1 := by
    simp [bigB, String.length]
  refine ⟨rfl, by omega, ?_⟩
  exact claim6_oversized _ ⟨1, "user", bigB, 1, 1⟩ rfl
    (by change CONTEXT_CHAR_LIMIT < bigB.length; omega)

lemma relayLoop_malformed (convId : Nat) (rest : List UpstreamLine) (acc : String)
    (st : Store) :
    relayLoop convId (UpstreamLine.malformed :: rest) acc st =
      relayLoop convId rest acc st := rfl

lemma relayLoop_chunk_none_false (convId : Nat) (rest : List UpstreamLine)
    (acc : String) (st : Store) :
    relayLoop convId (UpstreamLine.chunk none false :: rest) acc st =
      relayLoop convId rest acc st := by
  simp [relayLoop]

lemma relayLoop_chunk_none_true (convId : Nat) (rest : List UpstreamLine)
    (acc : String) (st : Store) :
    relayLoop convId (UpstreamLine.chunk none true :: rest) acc st =
      (Event.done ⟨st.nextId, "assistant", acc, st.clock, convId⟩ ::
        (relayLoop convId rest acc
          ⟨st.messages ++ [⟨st.nextId, "assistant", acc, st.clock, convId⟩],
            st.nextId + 1, st.clock + 1⟩).1,
       (relayLoop convId rest acc
          ⟨st.messages ++ [⟨st.nextId, "assistant", acc, st.clock, convId⟩],
            st.nextId + 1, st.clock + 1⟩).2) := by
  simp [relayLoop, Store.insertMessage]

lemma relayLoop_chunk_empty (convId : Nat) (rest : List UpstreamLine) (acc : String)
    (st : Store) (piece : String) (hp : piece.isEmpty = true) (d : Bool) :
    relayLoop convId (UpstreamLine.chunk (some piece) d :: rest) acc st =
      relayLoop convId (UpstreamLine.chunk none d :: rest) acc st := by
  simp [relayLoop, hp]

lemma relayLoop_chunk_piece_false (convId : Nat) (rest : List UpstreamLine)
    (acc : String) (st : Store) (piece : String) (hp : piece.isEmpty = false) :
    relayLoop convId (UpstreamLine.chunk (some piece) false :: rest) acc st =
      (Event.delta piece :: (relayLoop convId rest (acc ++ piece) st).1,
       (relayLoop convId rest (acc ++ piece) st).2) := by
  simp [relayLoop, hp]

lemma relayLoop_chunk_piece_true (convId : Nat) (rest : List UpstreamLine)
    (acc : String) (st : Store) (piece : String) (hp : piece.isEmpty = false) :
    relayLoop convId (UpstreamLine.chunk (some piece) true :: rest) acc st =
      (Event.delta piece ::
        Event.done ⟨st.nextId, "assistant", acc ++ piece, st.clock, convId⟩ ::
        (relayLoop convId rest (acc ++ piece)
          ⟨st.messages ++ [⟨st.nextId, "assistant", acc ++ piece, st.clock, convId⟩],
            st.nextId + 1, st.clock + 1⟩).1,
       (relayLoop convId rest (acc ++ piece)
          ⟨st.messages ++ [⟨st.nextId, "assistant", acc ++ piece, st.clock, convId⟩],
            st.nextId + 1, st.clock + 1⟩).2) := by
  simp [relayLoop, hp, Store.insertMessage]

lemma relayLoop_delta_ne (convId : Nat) (lines : List UpstreamLine) :
    ∀ (acc : String) (st : Store) (s : String),
      Event.delta s ∈ (relayLoop convId lines acc st).1 → s ≠ "" := by
  induction lines with
  | nil => intro acc st s h; simp [relayLoop] at h
  | cons l rest ih =>
    intro acc st s h
    cases l with
    | malformed =>
      rw [relayLoop_malformed] at h
      exact ih _ _ _ h
    | chunk content d =>
      rcases content with _ | piece
      · cases d
        · rw [relayLoop_chunk_none_false] at h
          exact ih _ _ _ h
        · rw [relayLoop_chunk_none_true] at h
          simp only [List.mem_cons] at h
          rcases h with h1 | h2
          · exact absurd h1 (by simp)
          · exact ih _ _ _ h2
      · cases hp : piece.isEmpty
        · cases d
          · rw [relayLoop_chunk_piece_false convId rest acc st piece hp] at h
            simp only [List.mem_cons] at h
            rcases h with h1 | h2
            · have hs : s = piece := by
                simpa using h1
              subst hs
              intro he
              subst he
              exact absurd (by decide : ("" : String).isEmpty = true) (by simp [hp])
            · exact ih _ _ _ h2
          · rw [relayLoop_chunk_piece_true convId rest acc st piece hp] at h
            simp only [List.mem_cons] at h
            rcases h with h1 | h2
            · have hs : s = piece := by
                simpa using h1
              subst hs
              intro he
              subst he
              exact absurd (by decide : ("" : String).isEmpty = true) (by simp [hp])
            · rcases h2 with h3 | h4
              · exact absurd h3 (by simp)
              · exact ih _ _ _ h4
        · cases d
          · rw [relayLoop_chunk_empty convId rest acc st piece hp,
              relayLoop_chunk_none_false] at h
            exact ih _ _ _ h
          · rw [relayLoop_chunk_empty convId rest acc st piece hp,
              relayLoop_chunk_none_true] at h
            simp only [List.mem_cons] at h
            rcases h with h1 | h2
            · exact absurd h1 (by simp)
            · exact ih _ _ _ h2

lemma relayLoop_dmd (convId : Nat) (lines : List UpstreamLine) :
    ∀ (acc : String) (st : Store),
      DoneMatchesDeltas acc (relayLoop convId lines acc st).1 := by
  induction lines with
  | nil =>
    intro acc st
    rw [show (relayLoop convId [] acc st).1 = [] from rfl]
    exact trivial
  | cons l rest ih =>
    intro acc st
    cases l with
    | malformed =>
      rw [relayLoop_malformed]
      exact ih acc st
    | chunk content d =>
      rcases content with _ | piece
      · cases d
        · rw [relayLoop_chunk_none_false]
          exact ih acc st
        · rw [relayLoop_chunk_none_true]
          exact ⟨rfl, ih acc _⟩
      · cases hp : piece.isEmpty
        · cases d
          · rw [relayLoop_chunk_piece_false convId rest acc st piece hp]
            exact ih (acc ++ piece) st
          · rw [relayLoop_chunk_piece_true convId rest acc st piece hp]
            exact ⟨rfl, ih (acc ++ piece) _⟩
        · cases d
          · rw [relayLoop_chunk_empty convId rest acc st piece hp,
              relayLoop_chunk_none_false]
            exact ih acc st
          · rw [relayLoop_chunk_empty convId rest acc st piece hp,
              relayLoop_chunk_none_true]
            exact ⟨rfl, ih acc _⟩

lemma dmd_getLast (evs : List Event) :
    ∀ (acc : String) (m : ChatMessage),
      DoneMatchesDeltas acc evs → evs.getLast? = some (Event.done m) →
        m.content = acc ++ deltaConcat evs := by
  induction evs with
  | nil => intro acc m _ hl; simp at hl
  | cons e rest ih =>
    intro acc m hd hl
    cases rest with
    | nil =>
      rw [List.getLast?_singleton] at hl
      have he : e = Event.done m := Option.some.inj hl
      subst he
      exact (show m.content = acc ∧ True from hd).1.trans
        (by rw [show deltaConcat [Event.done m] = "" from rfl, String.append_empty])
    | cons e2 rest2 =>
      have hl' : (e2 :: rest2).getLast? = some (Event.done m) := by
        rw [← List.getLast?_cons_cons (a := e)]
        exact hl
      cases e with
      | delta s =>
        have hrec := ih (acc ++ s) m hd hl'
        rw [show deltaConcat (Event.delta s :: e2 :: rest2) =
          s ++ deltaConcat (e2 :: rest2) from rfl, ← String.append_assoc]
        exact hrec
      | done m2 =>
        have hrec := ih acc m (show m2.content = acc ∧ _ from hd).2 hl'
        rw [show deltaConcat (Event.done m2 :: e2 :: rest2) =
          deltaConcat (e2 :: rest2) from rfl]
        exact hrec
      | initial u c =>
        have hrec := ih acc m hd hl'
        rw [show deltaConcat (Event.initial u c :: e2 :: rest2) =
          deltaConcat (e2 :: rest2) from rfl]
        exact hrec
      | error t =>
        have hrec := ih acc m hd hl'
        rw [show deltaConcat (Event.error t :: e2 :: rest2) =
          deltaConcat (e2 :: rest2) from rfl]
        exact hrec

/-- C1 counterexample: a 200-status body whose completion-flagged line is
followed by a further content-bearing line.  The relay emits delta events
`"a"` then `"b"` but the single done event (the only candidate for the
terminal done event) carries a persisted assistant Message whose content is
`"a"`: the concatenation of all delta fragments differs from it. -/
theorem claim1_counterexample :
    (stream_ollama_response 1
        ⟨200, "", [UpstreamLine.chunk (some "a") true,
          UpstreamLine.chunk (some "b") false]⟩ ⟨[], 0, 0⟩).1 =
      [Event.delta "a", Event.done ⟨0, "assistant", "a", 0, 1⟩,
        Event.delta "b"] ∧
    deltaConcat (stream_ollama_response 1
        ⟨200, "", [UpstreamLine.chunk (some "a") true,
          UpstreamLine.chunk (some "b") false]⟩ ⟨[], 0, 0⟩).1 ≠
      (⟨0, "assistant", "a", 0, 1⟩ : ChatMessage).content := by
  decide

/-- C1 amended: whenever the relay's final emitted event is a done event (in
particular for every well-formed success body, where the completion-flagged
line is the last line), the concatenation, in emission order, of the
fragments of all delta events equals the `content` of the assistant Message
persisted and carried by that terminal done event.  (The unamended claim
fails only when content-bearing lines follow the completion flag.) -/
theorem claim1_roundtrip (convId : Nat) (resp : UpstreamResponse) (st : Store)
    (m : ChatMessage) (h200 : resp.status = 200)
    (hlast : (stream_ollama_response convId resp st).1.getLast? =
      some (Event.done m)) :
    deltaConcat (stream_ollama_response convId resp st).1 = m.content := by
  have hs : stream_ollama_response convId resp st =
      relayLoop convId resp.lines "" st := by
    simp [stream_ollama_response, h200]
  rw [hs] at hlast ⊢
  have hd := relayLoop_dmd convId resp.lines "" st
  have hm := dmd_getLast _ "" m hd hlast
  rw [hm, String.empty_append]

/-- C1 witness: a 200 response carrying fragments `"he"`, `"llo"` and a
final completion line; the deltas concatenate to `"hello"`, the content of
the persisted terminal Message. -/
theorem claim1_witness :
    (⟨200, "", [UpstreamLine.chunk (some "he") false,
        UpstreamLine.chunk (some "llo") true]⟩ : UpstreamResponse).status = 200 ∧
    (stream_ollama_response 1
        ⟨200, "", [UpstreamLine.chunk (some "he") false,
          UpstreamLine.chunk (some "llo") true]⟩ ⟨[], 0, 0⟩).1.getLast? =
      some (Event.done ⟨0, "assistant", "hello", 0, 1⟩) ∧
    deltaConcat (stream_ollama_response 1
        ⟨200, "", [UpstreamLine.chunk (some "he") false,
          UpstreamLine.chunk (some "llo") true]⟩ ⟨[], 0, 0⟩).1 = "hello" :=
  ⟨rfl, by decide,
    claim1_roundtrip 1 ⟨200, "", [UpstreamLine.chunk (some "he") false,
      UpstreamLine.chunk (some "llo") true]⟩ ⟨[], 0, 0⟩
      ⟨0, "assistant", "hello", 0, 1⟩ rfl (by decide)⟩

/-- C9: a parsed line whose content fragment is the empty string emits no
delta event and leaves the reply accumulator unchanged — it behaves exactly
like a line with no content field at all — and consequently every emitted
delta event carries a non-empty fragment. -/
theorem claim9_empty_fragment (convId : Nat) (lines rest : List UpstreamLine)
    (acc : String) (st : Store) (d : Bool) (s : String)
    (h : Event.delta s ∈ (relayLoop convId lines acc st).1) :
    s ≠ "" ∧
    relayLoop convId (UpstreamLine.chunk (some "") d :: rest) acc st =
      relayLoop convId (UpstreamLine.chunk none d :: rest) acc st :=
  ⟨relayLoop_delta_ne convId lines acc st s h, rfl⟩

/-- C9 witness: the fragment `"x"` is emitted by a one-line body and is
non-empty; an empty-fragment completion line acts like a content-free
completion line. -/
theorem claim9_witness :
    Event.delta "x" ∈
      (relayLoop 1 [UpstreamLine.chunk (some "x") false] "" ⟨[], 0, 0⟩).1 ∧
    "x" ≠ "" ∧
    relayLoop 1 [UpstreamLine.chunk (some "") true] "" ⟨[], 0, 0⟩ =
      relayLoop 1 [UpstreamLine.chunk none true] "" ⟨[], 0, 0⟩ := by
  refine ⟨by decide, ?_⟩
  exact claim9_empty_fragment 1 [UpstreamLine.chunk (some "x") false] []
    "" ⟨[], 0, 0⟩ true "x" (by decide)

lemma countDoneLines_chunk (content : Option String) (d : Bool)
    (rest : List UpstreamLine) :
    countDoneLines (UpstreamLine.chunk content d :: rest) =
      countDoneLines rest + (if d then 1 else 0) := by
  simp [countDoneLines, List.countP_cons, UpstreamLine.isDone]

lemma relayLoop_messages (convId : Nat) (lines : List UpstreamLine) :
    ∀ (acc : String) (st : Store),
      ∃ tail : List ChatMessage,
        (relayLoop convId lines acc st).2.messages = st.messages ++ tail ∧
        tail.length = countDoneLines lines ∧
        ∀ m ∈ tail, m.role = "assistant" := by
  induction lines with
  | nil =>
    intro acc st
    exact ⟨[], by simp [relayLoop], by simp [countDoneLines], by simp⟩
  | cons l rest ih =>
    intro acc st
    cases l with
    | malformed =>
      obtain ⟨tail, h1, h2, h3⟩ := ih acc st
      refine ⟨tail, by rw [relayLoop_malformed]; exact h1, ?_, h3⟩
      rw [h2]
      simp [countDoneLines, List.countP_cons, UpstreamLine.isDone]
    | chunk content d =>
      rcases content with _ | piece
      · cases d
        · obtain ⟨tail, h1, h2, h3⟩ := ih acc st
          refine ⟨tail, by rw [relayLoop_chunk_none_false]; exact h1, ?_, h3⟩
          rw [h2, countDoneLines_chunk]
          simp
        · obtain ⟨tail, h1, h2, h3⟩ := ih acc
            ⟨st.messages ++ [⟨st.nextId, "assistant", acc, st.clock, convId⟩],
              st.nextId + 1, st.clock + 1⟩
          refine ⟨⟨st.nextId, "assistant", acc, st.clock, convId⟩ :: tail, ?_, ?_, ?_⟩
          · rw [relayLoop_chunk_none_true]
            simpa [List.append_assoc] using h1
          · rw [countDoneLines_chunk]
            simp [h2]
          · intro m hm
            rcases List.mem_cons.mp hm with h | h
            · rw [h]
            · exact h3 m h
      · cases hp : piece.isEmpty
        · cases d
          · obtain ⟨tail, h1, h2, h3⟩ := ih (acc ++ piece) st
            refine ⟨tail, ?_, ?_, h3⟩
            · rw [relayLoop_chunk_piece_false convId rest acc st piece hp]
              exact h1
            · rw [h2, countDoneLines_chunk]
              simp
          · obtain ⟨tail, h1, h2, h3⟩ := ih (acc ++ piece)
              ⟨st.messages ++
                  [⟨st.nextId, "assistant", acc ++ piece, st.clock, convId⟩],
                st.nextId + 1, st.clock + 1⟩
            refine ⟨⟨st.nextId, "assistant", acc ++ piece, st.clock, convId⟩ :: tail,
              ?_, ?_, ?_⟩
            · rw [relayLoop_chunk_piece_true convId rest acc st piece hp]
              simpa [List.append_assoc] using h1
            · rw [countDoneLines_chunk]
              simp [h2]
            · intro m hm
              rcases List.mem_cons.mp hm with h | h
              · rw [h]
              · exact h3 m h
        · cases d
          · obtain ⟨tail, h1, h2, h3⟩ := ih acc st
            refine ⟨tail, ?_, ?_, h3⟩
            · rw [relayLoop_chunk_empty convId rest acc st piece hp,
                relayLoop_chunk_none_false]
              exact h1
            · rw [h2, countDoneLines_chunk]
              simp
          · obtain ⟨tail, h1, h2, h3⟩ := ih acc
              ⟨st.messages ++ [⟨st.nextId, "assistant", acc, st.clock, convId⟩],
                st.nextId + 1, st.clock + 1⟩
            refine ⟨⟨st.nextId, "assistant", acc, st.clock, convId⟩ :: tail,
              ?_, ?_, ?_⟩
            · rw [relayLoop_chunk_empty convId rest acc st piece hp,
                relayLoop_chunk_none_true]
              simpa [List.append_assoc] using h1
            · rw [countDoneLines_chunk]
              simp [h2]
            · intro m hm
              rcases List.mem_cons.mp hm with h | h
              · rw [h]
              · exact h3 m h

lemma stream_ollama_response_error (convId : Nat) (resp : UpstreamResponse)
    (st : Store) (h : resp.status ≠ 200) :
    stream_ollama_response convId resp st =
      ([Event.error ("Ollama API Error: " ++ resp.errorBody)], st) := by
  simp [stream_ollama_response, h]

/-- C3 counterexample: a single relay invocation on a body with two
completion-flagged lines performs two Store writes (two assistant Message
inserts), refuting that at most one write happens for every upstream body. -/
theorem claim3_counterexample :
    2 ≤ (stream_ollama_response 1
        ⟨200, "", [UpstreamLine.chunk none true, UpstreamLine.chunk none true]⟩
        ⟨[], 0, 0⟩).2.messages.length ∧
    ¬ ((stream_ollama_response 1
        ⟨200, "", [UpstreamLine.chunk none true, UpstreamLine.chunk none true]⟩
        ⟨[], 0, 0⟩).2.messages.length ≤
      (⟨[], 0, 0⟩ : Store).messages.length + 1) := by
  decide

/-- C3 amended: for every upstream response body with at most one
completion-flagged line (the number of content fragments is irrelevant), one
relay invocation performs at most one Store write: the final store is the
initial one extended by at most one row, and any added row is an assistant
Message; no partial accumulator state is persisted along the way.  (The
unamended claim fails only for bodies carrying the completion flag on two or
more lines, where the code inserts once per flagged line.) -/
theorem claim3_single_write (convId : Nat) (resp : UpstreamResponse) (st : Store)
    (h : countDoneLines resp.lines ≤ 1) :
    ∃ tail : List ChatMessage,
      (stream_ollama_response convId resp st).2.messages = st.messages ++ tail ∧
      tail.length ≤ 1 ∧ ∀ m ∈ tail, m.role = "assistant" := by
  by_cases h200 : resp.status = 200
  · obtain ⟨tail, h1, h2, h3⟩ := relayLoop_messages convId resp.lines "" st
    refine ⟨tail, ?_, by rw [h2]; exact h, h3⟩
    have hs : stream_ollama_response convId resp st =
        relayLoop convId resp.lines "" st := by
      simp [stream_ollama_response, h200]
    rw [hs]
    exact h1
  · refine ⟨[], ?_, by simp, by simp⟩
    rw [stream_ollama_response_error convId resp st h200]
    simp

/-- C3 witness: three content fragments and one completion line yield
exactly one appended assistant row. -/
theorem claim3_witness :
    countDoneLines [UpstreamLine.chunk (some "x") false,
      UpstreamLine.chunk (some "y") false, UpstreamLine.chunk none true] ≤ 1 ∧
    ∃ tail : List ChatMessage,
      (stream_ollama_response 1
          ⟨200, "", [UpstreamLine.chunk (some "x") false,
            UpstreamLine.chunk (some "y") false, UpstreamLine.chunk none true]⟩
          ⟨[], 0, 0⟩).2.messages = (⟨[], 0, 0⟩ : Store).messages ++ tail ∧
      tail.length ≤ 1 ∧ ∀ m ∈ tail, m.role = "assistant" :=
  ⟨by decide,
    claim3_single_write 1
      ⟨200, "", [UpstreamLine.chunk (some "x") false,
        UpstreamLine.chunk (some "y") false, UpstreamLine.chunk none true]⟩
      ⟨[], 0, 0⟩ (by decide)⟩

/-- C5: on a non-success upstream status the relay emits exactly one outward
event, the error event carrying the upstream error body — hence no delta and
no done event — terminates, and leaves the Store untouched (zero writes, no
assistant Message persisted). -/
theorem claim5_upstream_error (convId : Nat) (resp : UpstreamResponse)
    (st : Store) (h : resp.status ≠ 200) :
    (stream_ollama_response convId resp st).1 =
      [Event.error ("Ollama API Error: " ++ resp.errorBody)] ∧
    (∀ e ∈ (stream_ollama_response convId resp st).1,
      e.isDelta = false ∧ e.isDone = false) ∧
    (stream_ollama_response convId resp st).2 = st := by
  rw [stream_ollama_response_error convId resp st h]
  refine ⟨rfl, ?_, rfl⟩
  intro e he
  rcases List.mem_singleton.mp he with rfl
  exact ⟨rfl, rfl⟩

/-- C5 witness: an HTTP 500 upstream produces exactly one error event and no
new Store row. -/
theorem claim5_witness :
    (⟨500, "boom", [UpstreamLine.chunk (some "x") true]⟩ :
      UpstreamResponse).status ≠ 200 ∧
    (stream_ollama_response 1
        ⟨500, "boom", [UpstreamLine.chunk (some "x") true]⟩ ⟨[], 0, 0⟩).1 =
      [Event.error ("Ollama API Error: " ++ "boom")] ∧
    (∀ e ∈ (stream_ollama_response 1
        ⟨500, "boom", [UpstreamLine.chunk (some "x") true]⟩ ⟨[], 0, 0⟩).1,
      e.isDelta = false ∧ e.isDone = false) ∧
    (stream_ollama_response 1
        ⟨500, "boom", [UpstreamLine.chunk (some "x") true]⟩ ⟨[], 0, 0⟩).2 =
      ⟨[], 0, 0⟩ :=
  ⟨by decide,
    claim5_upstream_error 1 ⟨500, "boom", [UpstreamLine.chunk (some "x") true]⟩
      ⟨[], 0, 0⟩ (by decide)⟩

lemma bool_filter_aux (a : Bool) (x y : Nat) :
    (a && !(a && decide (y ≤ x))) = (decide (x < y) && a) := by
  cases a
  · simp
  · simp only [Bool.true_and, Bool.and_true]
    rw [← decide_not]
    exact decide_eq_decide.mpr Nat.not_le

lemma bool_filter_aux2 (c c0 u : Nat) (b : Bool) (hne : c ≠ c0) :
    ((u == c) && !((u == c0) && b)) = (u == c) := by
  by_cases h : u = c
  · subst h
    have h0 : (u == c0) = false := beq_eq_false_iff_ne.mpr hne
    rw [h0]
    simp
  · have h0 : (u == c) = false := beq_eq_false_iff_ne.mpr h
    rw [h0]
    simp

lemma regen_filter_self (L : List ChatMessage) (c0 t0 : Nat) :
    (L.filter (fun m => !(m.conversation_id == c0 &&
        decide (t0 ≤ m.created_at)))).filter
        (fun m => m.conversation_id == c0) =
      (L.filter (fun m => m.conversation_id == c0)).filter
        (fun m => decide (m.created_at < t0)) := by
  rw [List.filter_filter, List.filter_filter]
  exact List.filter_congr
    (fun m _ => bool_filter_aux (m.conversation_id == c0) m.created_at t0)

lemma regen_filter_other (L : List ChatMessage) (c0 t0 c : Nat) (hne : c ≠ c0) :
    (L.filter (fun m => !(m.conversation_id == c0 &&
        decide (t0 ≤ m.created_at)))).filter
        (fun m => m.conversation_id == c) =
      L.filter (fun m => m.conversation_id == c) := by
  rw [List.filter_filter]
  exact List.filter_congr
    (fun m _ => bool_filter_aux2 c c0 m.conversation_id
      (decide (t0 ≤ m.created_at)) hne)

lemma regen_messagesOf_self (L : List ChatMessage) (c0 t0 nid cl : Nat)
    (p : String) :
    ((L.filter (fun m => !(m.conversation_id == c0 &&
        decide (t0 ≤ m.created_at))) ++
        [(⟨nid, "user", p, cl, c0⟩ : ChatMessage)]).filter
          (fun m => m.conversation_id == c0)) =
      (L.filter (fun m => m.conversation_id == c0)).filter
        (fun m => decide (m.created_at < t0)) ++
        [(⟨nid, "user", p, cl, c0⟩ : ChatMessage)] := by
  rw [List.filter_append, regen_filter_self]
  congr 1
  simp

lemma regen_messagesOf_other (L : List ChatMessage) (c0 t0 nid cl : Nat)
    (p : String) (c : Nat) (hne : c ≠ c0) :
    ((L.filter (fun m => !(m.conversation_id == c0 &&
        decide (t0 ≤ m.created_at))) ++
        [(⟨nid, "user", p, cl, c0⟩ : ChatMessage)]).filter
          (fun m => m.conversation_id == c)) =
      L.filter (fun m => m.conversation_id == c) := by
  rw [List.filter_append, regen_filter_other L c0 t0 c hne]
  have h0 : ([⟨nid, "user", p, cl, c0⟩] : List ChatMessage).filter
      (fun m => m.conversation_id == c) = [] := by
    simp [Ne.symm hne]
  rw [h0, List.append_nil]

lemma find?_id_eq (st : Store) (mid : Nat) (m0 : ChatMessage)
    (hWF : st.WF) (hm : m0 ∈ st.messages) (hid : m0.id = mid) :
    st.messages.find? (fun m => m.id == mid) = some m0 := by
  cases hf : st.messages.find? (fun m => m.id == mid) with
  | none =>
    rw [List.find?_eq_none] at hf
    exact absurd (by simp [hid] : ((m0.id == mid) = true)) (hf m0 hm)
  | some x =>
    have hx : x ∈ st.messages := List.mem_of_find?_eq_some hf
    have hpx : x.id = mid := by simpa using List.find?_some hf
    by_cases hxm : x = m0
    · rw [hxm]
    · have hsym : Symmetric (fun a b : ChatMessage => a.id ≠ b.id) :=
        fun a b h => Ne.symm h
      have hne := List.Pairwise.forall hsym hWF.2 hx hm hxm
      exact absurd (hpx.trans hid.symm) hne

lemma regen_ok (st : Store) (mid : Nat) (p : String) (m0 : ChatMessage)
    (hWF : st.WF) (hm : m0 ∈ st.messages) (hid : m0.id = mid)
    (hrole : m0.role = "user") :
    regenerate_from_prompt st mid p =
      Except.ok
        (⟨st.messages.filter
            (fun m => !(m.conversation_id == m0.conversation_id &&
              decide (m0.created_at ≤ m.created_at))) ++
            [⟨st.nextId, "user", p, st.clock, m0.conversation_id⟩],
          st.nextId + 1, st.clock + 1⟩,
         ⟨st.nextId, "user", p, st.clock, m0.conversation_id⟩,
         m0.conversation_id) := by
  simp only [regenerate_from_prompt, find?_id_eq st mid m0 hWF hm hid]
  rw [if_neg (by simp [hrole])]
  rfl

/-- C4: regenerating on an existing user message with timestamp `t0`
deletes exactly the messages of that conversation with timestamp `>= t0`
(other conversations are untouched), leaving the strict prefix of messages
with timestamp `< t0` followed by one newly inserted user Message carrying
the replacement prompt, whose timestamp is strictly later than `t0`. -/
theorem claim4_regenerate (st : Store) (mid : Nat) (p : String) (m0 : ChatMessage)
    (hWF : st.WF) (hm : m0 ∈ st.messages) (hid : m0.id = mid)
    (hrole : m0.role = "user") :
    ∃ st2 newMsg,
      regenerate_from_prompt st mid p =
        Except.ok (st2, newMsg, m0.conversation_id) ∧
      st2.messagesOf m0.conversation_id =
        (st.messagesOf m0.conversation_id).filter
          (fun m => decide (m.created_at < m0.created_at)) ++ [newMsg] ∧
      (∀ c, c ≠ m0.conversation_id → st2.messagesOf c = st.messagesOf c) ∧
      newMsg.role = "user" ∧ newMsg.content = p ∧
      m0.created_at < newMsg.created_at := by
  refine ⟨_, _, regen_ok st mid p m0 hWF hm hid hrole, ?_, ?_, rfl, rfl,
    hWF.1 m0 hm⟩
  · simp only [Store.messagesOf]
    exact regen_messagesOf_self st.messages m0.conversation_id m0.created_at
      st.nextId st.clock p
  · intro c hc
    simp only [Store.messagesOf]
    exact regen_messagesOf_other st.messages m0.conversation_id m0.created_at
      st.nextId st.clock p c hc

/-- C4 witness: a two-message conversation rewound at its first (user)
message: both rows are deleted and replaced by the new user row with a
strictly later timestamp. -/
theorem claim4_witness :
    (⟨[⟨0, "user", "hi", 0, 1⟩, ⟨1, "assistant", "yo", 1, 1⟩], 2, 2⟩ :
      Store).WF ∧
    (⟨0, "user", "hi", 0, 1⟩ : ChatMessage) ∈
      (⟨[⟨0, "user", "hi", 0, 1⟩, ⟨1, "assistant", "yo", 1, 1⟩], 2, 2⟩ :
        Store).messages ∧
    (∃ st2 newMsg,
      regenerate_from_prompt
          ⟨[⟨0, "user", "hi", 0, 1⟩, ⟨1, "assistant", "yo", 1, 1⟩], 2, 2⟩ 0
          "edit" =
        Except.ok (st2, newMsg,
          (⟨0, "user", "hi", 0, 1⟩ : ChatMessage).conversation_id) ∧
      st2.messagesOf (⟨0, "user", "hi", 0, 1⟩ : ChatMessage).conversation_id =
        ((⟨[⟨0, "user", "hi", 0, 1⟩, ⟨1, "assistant", "yo", 1, 1⟩], 2, 2⟩ :
          Store).messagesOf
            (⟨0, "user", "hi", 0, 1⟩ : ChatMessage).conversation_id).filter
          (fun m => decide (m.created_at <
            (⟨0, "user", "hi", 0, 1⟩ : ChatMessage).created_at)) ++ [newMsg] ∧
      (∀ c, c ≠ (⟨0, "user", "hi", 0, 1⟩ : ChatMessage).conversation_id →
        st2.messagesOf c =
          (⟨[⟨0, "user", "hi", 0, 1⟩, ⟨1, "assistant", "yo", 1, 1⟩], 2, 2⟩ :
            Store).messagesOf c) ∧
      newMsg.role = "user" ∧ newMsg.content = "edit" ∧
      (⟨0, "user", "hi", 0, 1⟩ : ChatMessage).created_at <
        newMsg.created_at) := by
  have hwf : (⟨[⟨0, "user", "hi", 0, 1⟩, ⟨1, "assistant", "yo", 1, 1⟩], 2, 2⟩ :
      Store).WF := by
    constructor
    · decide
    · decide
  exact ⟨hwf, by decide,
    claim4_regenerate _ 0 "edit" ⟨0, "user", "hi", 0, 1⟩ hwf (by decide) rfl rfl⟩

/-- C8: a regeneration request whose `message_id` resolves to no stored
Message, or to one whose role is not `user` (for example an id consumed by a
prior regeneration's deletion), fails with the not-found condition; in the
code the 404 is raised before any `session.delete`/`session.add`, so no
mutation occurs and the Store is unchanged. -/
theorem claim8_not_found (st : Store) (mid : Nat) (p : String)
    (h : ∀ m, st.messages.find? (fun x => x.id == mid) = some m →
      m.role ≠ "user") :
    regenerate_from_prompt st mid p = Except.error () := by
  unfold regenerate_from_prompt
  cases hf : st.messages.find? (fun m => m.id == mid) with
  | none => rfl
  | some m =>
    simp [h m hf]

/-- C8 witness: regenerating on a message that exists but has role
`assistant` fails not-found. -/
theorem claim8_witness :
    (∀ m : ChatMessage,
      ([⟨5, "assistant", "yo", 3, 2⟩] : List ChatMessage).find?
        (fun x => x.id == 5) = some m → m.role ≠ "user") ∧
    regenerate_from_prompt ⟨[⟨5, "assistant", "yo", 3, 2⟩], 6, 4⟩ 5 "again" =
      Except.error () := by
  have h : ∀ m : ChatMessage,
      ([⟨5, "assistant", "yo", 3, 2⟩] : List ChatMessage).find?
        (fun x => x.id == 5) = some m → m.role ≠ "user" := by
    intro m hm
    have heval : ([⟨5, "assistant", "yo", 3, 2⟩] : List ChatMessage).find?
        (fun x => x.id == 5) = some ⟨5, "assistant", "yo", 3, 2⟩ := rfl
    rw [heval] at hm
    cases hm
    decide
  exact ⟨h, claim8_not_found ⟨[⟨5, "assistant", "yo", 3, 2⟩], 6, 4⟩ 5 "again" h⟩

/-- C10: in the regeneration endpoint the rewind deletion and the
replacement-user-message insert are committed to the Store before the
upstream request is driven; if the upstream then fails (non-200), the
response stream is the initial event followed by the single error event, no
assistant Message is persisted, and the conversation retains exactly the
rewound prefix plus the new user Message. -/
theorem claim10_rewind_survives_upstream_error (st : Store) (mid : Nat)
    (p : String) (resp : UpstreamResponse) (m0 : ChatMessage)
    (hWF : st.WF) (hm : m0 ∈ st.messages) (hid : m0.id = mid)
    (hrole : m0.role = "user") (hstatus : resp.status ≠ 200) :
    ∃ st2 newMsg,
      regenerate_from_prompt st mid p =
        Except.ok (st2, newMsg, m0.conversation_id) ∧
      regenerate_endpoint st mid p resp =
        Except.ok ([Event.initial newMsg m0.conversation_id,
          Event.error ("Ollama API Error: " ++ resp.errorBody)], st2) ∧
      st2.messagesOf m0.conversation_id =
        (st.messagesOf m0.conversation_id).filter
          (fun m => decide (m.created_at < m0.created_at)) ++ [newMsg] ∧
      newMsg.role = "user" ∧ newMsg.content = p := by
  refine ⟨_, _, regen_ok st mid p m0 hWF hm hid hrole, ?_, ?_, rfl, rfl⟩
  · simp only [regenerate_endpoint, regen_ok st mid p m0 hWF hm hid hrole]
    rw [stream_ollama_response_error _ resp _ hstatus]
  · simp only [Store.messagesOf]
    exact regen_messagesOf_self st.messages m0.conversation_id m0.created_at
      st.nextId st.clock p

/-- C10 witness: rewinding the two-message conversation and then receiving
an upstream HTTP 500 leaves the new user row in place with no assistant
reply. -/
theorem claim10_witness :
    (⟨[⟨0, "user", "hi", 0, 1⟩, ⟨1, "assistant", "yo", 1, 1⟩], 2, 2⟩ :
      Store).WF ∧
    (⟨500, "boom", []⟩ : UpstreamResponse).status ≠ 200 ∧
    (∃ st2 newMsg,
      regenerate_from_prompt
          ⟨[⟨0, "user", "hi", 0, 1⟩, ⟨1, "assistant", "yo", 1, 1⟩], 2, 2⟩ 0
          "edit" =
        Except.ok (st2, newMsg,
          (⟨0, "user", "hi", 0, 1⟩ : ChatMessage).conversation_id) ∧
      regenerate_endpoint
          ⟨[⟨0, "user", "hi", 0, 1⟩, ⟨1, "assistant", "yo", 1, 1⟩], 2, 2⟩ 0
          "edit" ⟨500, "boom", []⟩ =
        Except.ok ([Event.initial newMsg
            (⟨0, "user", "hi", 0, 1⟩ : ChatMessage).conversation_id,
          Event.error ("Ollama API Error: " ++ "boom")], st2) ∧
      st2.messagesOf (⟨0, "user", "hi", 0, 1⟩ : ChatMessage).conversation_id =
        ((⟨[⟨0, "user", "hi", 0, 1⟩, ⟨1, "assistant", "yo", 1, 1⟩], 2, 2⟩ :
          Store).messagesOf
            (⟨0, "user", "hi", 0, 1⟩ : ChatMessage).conversation_id).filter
          (fun m => decide (m.created_at <
            (⟨0, "user", "hi", 0, 1⟩ : ChatMessage).created_at)) ++ [newMsg] ∧
      newMsg.role = "user" ∧ newMsg.content = "edit") := by
  have hwf : (⟨[⟨0, "user", "hi", 0, 1⟩, ⟨1, "assistant", "yo", 1, 1⟩], 2, 2⟩ :
      Store).WF := by
    constructor
    · decide
    · decide
  exact ⟨hwf, by decide,
    claim10_rewind_survives_upstream_error _ 0 "edit" ⟨500, "boom", []⟩
      ⟨0, "user", "hi", 0, 1⟩ hwf (by decide) rfl rfl (by decide)⟩
